import Mathlib

/-!
Verification of the DALI physical-layer codec (`_dali.py`).

The receive path (`class rx`) is an edge-interrupt driven Manchester decoder:
`_cbe` is called on every GPIO edge (or watchdog timeout, level = 2),
`_decode` consumes a (high-period, low-period) pair on every rising edge,
and `_stop` delivers the accumulated shift register to the user callback.

The transmit path (`class tx`) builds four pigpio pulse templates in
`_make_waves` and chains them in `send`.

All machine integers in the Python source are unbounded (`int`), so they are
modelled as `Nat`; pigpio's `tickDiff` works on 32-bit ticks and is modelled
with its explicit wrap-around.
-/

namespace Dali

/-! ### Receiver constants (class attributes of `rx`) -/

def MIN_TE : Nat := 350
def MAX_TE : Nat := 490
def MIN_2TE : Nat := 760
def MAX_2TE : Nat := 900
def STP_2TE : Nat := 1800

/-- `round(STP_2TE/1000.0)` = `round(1.8)` = 2 milliseconds. -/
def WDOG_MS : Nat := 2

/-- The condition `d > MIN_2TE and d < MAX_2TE` from `rx._decode`. -/
def isLong (d : Nat) : Bool := decide (MIN_2TE < d ∧ d < MAX_2TE)

/-- The condition `d > MIN_TE and d < MAX_TE` from `rx._decode`. -/
def isShort (d : Nat) : Bool := decide (MIN_TE < d ∧ d < MAX_TE)

/-- Timing classification of a pulse duration, in the order `rx._decode`
tests the windows (full-bit window first, then the half-bit window). -/
inductive Classification where
  | Short
  | Long
  | Invalid
deriving Repr, DecidableEq

def classify (d : Nat) : Classification :=
  if isLong d then .Long else if isShort d then .Short else .Invalid

/-! ### Receiver state (the mutable attributes of `rx`) -/

structure RxState where
  in_code : Nat
  edges : Nat
  code : Nat
  prev_edge_len : Nat
  prev : Nat
  last_edge_tick : Nat
  wdog : Nat
  frame : Nat
deriving Repr, DecidableEq

/-- State after `rx.__init__` (with `t0` the tick returned by
`pi.get_current_tick()`; `_prev` and `frame` are not assigned in
`__init__` and are modelled as 0). -/
def initState (t0 : Nat) : RxState := ⟨0, 0, 0, 0, 0, t0, 0, 0⟩

/-- `pigpio.tickDiff(t1, t2)`: 32-bit wrapping tick difference. -/
def tickDiff (t1 t2 : Nat) : Nat :=
  if t1 ≤ t2 then t2 - t1 else t2 + 4294967296 - t1

/-- The `action` word of `rx._decode`: `self._prev << 2`, OR 1 if the high
time is in the full-bit window, OR 2 if the low time is. -/
def actionOf (prev high_time low_time : Nat) : Nat :=
  ((prev <<< 2) ||| (if isLong high_time then 1 else 0)) |||
    (if isLong low_time then 2 else 0)

/-- `self._in_code` after the first if/elif chain of `rx._decode`
(`elif not (high_time > MIN_TE and high_time < MAX_TE): self._in_code = 0`). -/
def icOfHigh (ic high_time : Nat) : Nat :=
  if isLong high_time then ic else if isShort high_time then ic else 0

/-- `self._in_code` after both if/elif chains of `rx._decode`. -/
def icOf (ic high_time low_time : Nat) : Nat :=
  if isLong low_time then icOfHigh ic high_time
  else if isShort low_time then icOfHigh ic high_time
  else 0

/-- The tail of `rx._decode` after the unconditional
`self._code = self._code << 1`: dispatch on `action`. -/
def decodeAux (s : RxState) (action ic : Nat) : RxState :=
  if action = 1 ∨ action = 3 ∨ action = 6 then
    { s with in_code := 0, code := s.code <<< 1 }
  else if action = 2 ∨ action = 7 then
    { s with in_code := ic, code := ((s.code <<< 1) <<< 1) + 1, prev := 1 }
  else if action = 4 then
    { s with in_code := ic, code := (s.code <<< 1) + 1, prev := 1 }
  else
    { s with in_code := ic, code := s.code <<< 1, prev := 0 }

/-- `rx._decode(high_time, low_time)`. -/
def decode (s : RxState) (high_time low_time : Nat) : RxState :=
  decodeAux s (actionOf s.prev high_time low_time)
    (icOf s.in_code high_time low_time)

/-- The 3-bit selector `(previousHalfBit << 2) | (lowIsLong << 1) | highIsLong`. -/
def selector (p high_time low_time : Nat) : Nat :=
  (p <<< 2) ||| ((if isLong low_time then 1 else 0) <<< 1) |||
    (if isLong high_time then 1 else 0)

/-- `rx._stop`: capture `frame`, reset `_edges` and `_code`, invoke the
user callback with the frame.  The second component collects the callback
invocations. -/
def stopFrame (s : RxState) : RxState × List Nat :=
  let s2 : RxState := { s with frame := s.code, edges := 0, code := 0 }
  (s2, [s2.frame])

/-- `rx._cbe(gpio, level, tick)`: cancel the watchdog, then either process
an edge (level < 2) or deliver the frame on watchdog timeout (level = 2). -/
def cbe (s : RxState) (level tick : Nat) : RxState × List Nat :=
  let s0 : RxState := { s with wdog := 0 }
  if level < 2 then
    let el : Nat := tickDiff s0.last_edge_tick tick
    let s1 : RxState := { s0 with last_edge_tick := tick }
    let s2 : RxState :=
      if s1.edges < 2 then { s1 with prev := 1 }
      else if s1.edges % 2 = 1 then decode s1 s1.prev_edge_len el
      else { s1 with prev_edge_len := el }
    ({ s2 with edges := s2.edges + 1, wdog := WDOG_MS }, [])
  else
    stopFrame s0

/-- Run the receive callback over a list of `(level, tick)` events,
collecting all frames delivered to the user callback. -/
def runRx (s : RxState) : List (Nat × Nat) → RxState × List Nat
  | [] => (s, [])
  | (lv, tk) :: es =>
    let r1 := cbe s lv tk
    let r2 := runRx r1.1 es
    (r2.1, r1.2 ++ r2.2)

/-! ### Claims about the bit-decode step and the watchdog boundary -/

/-- C2: for every bit-decode step with `previousHalfBit ∈ {0,1}`, forming the
selector `(previousHalfBit << 2) | (lowIsLong << 1) | highIsLong`, the shift
register and `previousHalfBit` are updated exactly per the transition table:
selector 0 appends bit 0 and sets previousHalfBit to 0; selector 4 appends
bit 1 and sets it to 1; selector 5 appends bit 0 and sets it to 0; selectors
2 and 7 append the two bits 0 then 1 and set it to 1 (append = left-shift
then OR of the new least-significant bit). -/
theorem C2_transition_table (s : RxState) (h l : Nat)
    (hp : s.prev = 0 ∨ s.prev = 1) :
    (selector s.prev h l = 0 →
      (decode s h l).code = 2 * s.code ∧ (decode s h l).prev = 0)
  ∧ (selector s.prev h l = 4 →
      (decode s h l).code = 2 * s.code + 1 ∧ (decode s h l).prev = 1)
  ∧ (selector s.prev h l = 5 →
      (decode s h l).code = 2 * s.code ∧ (decode s h l).prev = 0)
  ∧ ((selector s.prev h l = 2 ∨ selector s.prev h l = 7) →
      (decode s h l).code = 2 * (2 * s.code) + 1 ∧ (decode s h l).prev = 1) := by
  rcases hp with hp | hp <;>
    cases hL : isLong h <;> cases lL : isLong l <;>
      simp [selector, decode, decodeAux, actionOf, hp, hL, lL, Nat.shiftLeft_eq]
  all_goals ring

/-- Witness for C2 at a concrete step: previousHalfBit 1, both durations
short (417 µs) give selector 4, which appends a 1 bit. -/
theorem C2_transition_table_witness :
    (decode ⟨0, 0, 5, 0, 1, 0, 0, 0⟩ 417 417).code = 2 * 5 + 1 ∧
    (decode ⟨0, 0, 5, 0, 1, 0, 0, 0⟩ 417 417).prev = 1 :=
  (C2_transition_table ⟨0, 0, 5, 0, 1, 0, 0, 0⟩ 417 417 (Or.inr rfl)).2.1 (by decide)

/-- C3 (counterexample): the claim says the boundary duration 350 µs
classifies as Short, but `rx._decode` uses the strict comparison
`high_time > self.MIN_TE`, so 350 µs is Invalid. -/
theorem C3_boundary_350_counterexample :
    classify 350 ≠ Classification.Short := by decide

/-- C3 (amended): durations in the open interval (350,490) classify as
Short, durations in (760,900) classify as Long, everything else (including
all four boundary values 350, 490, 760, 900) is Invalid. -/
theorem C3_classification_windows :
    (∀ d : Nat,
      (classify d = Classification.Short ↔ 350 < d ∧ d < 490)
      ∧ (classify d = Classification.Long ↔ 760 < d ∧ d < 900)
      ∧ (classify d = Classification.Invalid ↔
          ¬(350 < d ∧ d < 490) ∧ ¬(760 < d ∧ d < 900)))
  ∧ classify 350 = Classification.Invalid
  ∧ classify 490 = Classification.Invalid
  ∧ classify 760 = Classification.Invalid
  ∧ classify 900 = Classification.Invalid := by
  refine ⟨fun d => ?_, by decide, by decide, by decide, by decide⟩
  by_cases h1 : 760 < d ∧ d < 900 <;> by_cases h2 : 350 < d ∧ d < 490 <;>
    simp [classify, isLong, isShort, MIN_TE, MAX_TE, MIN_2TE, MAX_2TE, h1, h2]
  all_goals omega

/-- C4 (counterexample): the claim says a protocol-error step (selector 1)
leaves the shift register unchanged, but `rx._decode` executes
`self._code = self._code << 1` before the selector dispatch, so a state with
shift register 1 is changed (to 2) by a selector-1 step
(previousHalfBit 0, high 800 µs = long, low 400 µs = short). -/
theorem C4_error_shift_counterexample :
    (decode ⟨0, 4, 1, 0, 0, 0, 0, 0⟩ 800 400).code ≠ 1 := by decide

/-- C4 (amended): on a protocol-error selector (1, 3 or 6) the decoder sets
the error flag (`_in_code = 0`) and leaves `previousHalfBit` unchanged, but
the shift register is left-shifted by one (a 0 bit is appended by the
unconditional pre-shift) rather than left unchanged; an Invalid duration
likewise sets the error flag while the step still proceeds through the
transition table (the Invalid duration contributing 0 to the selector). -/
theorem C4_error_steps (s : RxState) (h l : Nat)
    (hp : s.prev = 0 ∨ s.prev = 1) :
    ((selector s.prev h l = 1 ∨ selector s.prev h l = 3 ∨ selector s.prev h l = 6) →
      (decode s h l).in_code = 0 ∧ (decode s h l).code = 2 * s.code ∧
      (decode s h l).prev = s.prev)
  ∧ ((classify h = Classification.Invalid ∨ classify l = Classification.Invalid) →
      (decode s h l).in_code = 0) := by
  rcases hp with hp | hp <;>
    cases hL : isLong h <;> cases lL : isLong l <;>
      cases hS : isShort h <;> cases lS : isShort l <;>
        simp [selector, decode, decodeAux, actionOf, icOf, icOfHigh, classify,
          hp, hL, lL, hS, lS, Nat.shiftLeft_eq]
  all_goals ring

/-- Witness for C4 at a concrete selector-1 step. -/
theorem C4_error_steps_witness :
    (decode ⟨0, 4, 1, 0, 0, 0, 0, 0⟩ 800 400).in_code = 0 ∧
    (decode ⟨0, 4, 1, 0, 0, 0, 0, 0⟩ 800 400).code = 2 * 1 ∧
    (decode ⟨0, 4, 1, 0, 0, 0, 0, 0⟩ 800 400).prev = 0 :=
  (C4_error_steps ⟨0, 4, 1, 0, 0, 0, 0, 0⟩ 800 400 (Or.inl rfl)).1 (Or.inl (by decide))

/-- C5: when the silence watchdog fires (level ≥ 2), `rx._cbe` calls
`rx._stop`, which performs exactly one callback invocation carrying
precisely the accumulated shift-register value; the expiry step appends no
bits (the delivered value is the state's `_code` as-is), the watchdog is
left cancelled, and the edge counter and shift register are reset. -/
theorem C5_watchdog_delivery (s : RxState) (level tick : Nat)
    (hl : ¬ level < 2) :
    cbe s level tick =
      ({ s with wdog := 0, frame := s.code, edges := 0, code := 0 }, [s.code]) := by
  simp [cbe, stopFrame, hl]

/-- Witness for C5: on a fresh decoder (zero emitted bits) the watchdog
still delivers exactly one frame, with value 0. -/
theorem C5_watchdog_delivery_witness :
    cbe (initState 7) 2 100 =
      ({ initState 7 with wdog := 0, frame := 0, edges := 0, code := 0 }, [0]) :=
  C5_watchdog_delivery (initState 7) 2 100 (by decide)

/-! ### Transmitter (`class tx`) -/

/-- `pigpio.pulse(gpioOn, gpioOff, delay)`. -/
structure Pulse where
  gpioOn : Nat
  gpioOff : Nat
  delay : Nat
deriving Repr, DecidableEq

/-- A `tx` instance: the gpio, the half-bit time `te`, and the four wave
ids returned by `pi.wave_create()` for the templates built in
`tx._make_waves` (pigpio wave ids are small naturals, never 255). -/
structure TxCfg where
  gpio : Nat
  te : Nat
  start : Nat
  stop : Nat
  wid0 : Nat
  wid1 : Nat
deriving Repr, DecidableEq

/-- START template: `pulse(0, 1<<gpio, te)` then `pulse(1<<gpio, 0, te)`. -/
def wave_start (g te : Nat) : List Pulse := [⟨0, 1 <<< g, te⟩, ⟨1 <<< g, 0, te⟩]

/-- STOP template: `pulse(1<<gpio, 0, tstop)` (with `tstop = 4*te`). -/
def wave_stop (g tstop : Nat) : List Pulse := [⟨1 <<< g, 0, tstop⟩]

/-- BIT0 template: `pulse(1<<gpio, 0, te)` then `pulse(0, 1<<gpio, te)`. -/
def wave_bit0 (g te : Nat) : List Pulse := [⟨1 <<< g, 0, te⟩, ⟨0, 1 <<< g, te⟩]

/-- BIT1 template: `pulse(0, 1<<gpio, te)` then `pulse(1<<gpio, 0, te)`. -/
def wave_bit1 (g te : Nat) : List Pulse := [⟨0, 1 <<< g, te⟩, ⟨1 <<< g, 0, te⟩]

/-- The level driven on gpio `g` by one pulse (every template pulse drives
the pin explicitly: it sets `1<<g` in either `gpioOn` or `gpioOff`). -/
def pulseLevel (g : Nat) (p : Pulse) : Bool := p.gpioOn.testBit g

/-- The `(level, duration)` sequence a template produces at the pin. -/
def waveSegs (g : Nat) (ps : List Pulse) : List (Bool × Nat) :=
  ps.map fun p => (pulseLevel g p, p.delay)

/-- The bit decisions of the `for i in range(bits)` loop of `tx.send`:
`code & bit` with `bit` walking from `1 << (bits-1)` down by `bit >> 1`. -/
def sendBits (code : Nat) : Nat → Nat → List Bool
  | _bit, 0 => []
  | bit, i + 1 => decide (code &&& bit ≠ 0) :: sendBits code (bit >>> 1) i

/-- The wave ids appended by the loop of `tx.send` (BIT1 where the masked
bit is nonzero, else BIT0). -/
def sendLoop (t : TxCfg) (code : Nat) : Nat → Nat → List Nat
  | _bit, 0 => []
  | bit, i + 1 =>
    (if code &&& bit ≠ 0 then t.wid1 else t.wid0) :: sendLoop t code (bit >>> 1) i

/-- The chain list built by `tx.send(code, bits, repeats)`:
`[255, 0, start] + bit waves + [stop, 255, 1, repeats, 0]`. -/
def sendChain (t : TxCfg) (code bits repeats : Nat) : List Nat :=
  [255, 0, t.start] ++ sendLoop t code (1 <<< (bits - 1)) bits ++
    [t.stop, 255, 1, repeats, 0]

/-- Backend semantics of the pigpio `wave_chain` command language as used by
`tx.send`: accumulate wave ids after a `255 0` loop-start marker until the
`255 1 x y` loop-repeat marker, which plays the accumulated block
`x + 256*y` times. -/
def chainLoopAcc : List Nat → List Nat → List Nat
  | [], acc => acc
  | w :: rest, acc =>
    if w = 255 then
      match rest with
      | 1 :: x :: y :: rest2 => (List.replicate (x + 256 * y) acc).flatten ++ rest2
      | _ => acc ++ w :: rest
    else chainLoopAcc rest (acc ++ [w])

/-- Expand a `wave_chain` program into the flat sequence of wave ids the
hardware plays, atomically, in order. -/
def chainExpand : List Nat → List Nat
  | [] => []
  | w :: rest =>
    if w = 255 then
      match rest with
      | 0 :: rest2 => chainLoopAcc rest2 []
      | _ => w :: rest
    else w :: chainExpand rest

/-- The bits of `v` at positions `n-1` down to `0` (MSB first). -/
def bitsMSB (v : Nat) : Nat → List Bool
  | 0 => []
  | m + 1 => v.testBit m :: bitsMSB v m

/-- The polling loop `while self.pi.wave_tx_busy(): time.sleep(0.1)` run
against the list of successive busy-flag readings: returns the index of the
first idle reading (the number of sleeps), or `none` if the flag never
clears (the loop would not return). -/
def pollLoop : List Bool → Option Nat
  | [] => none
  | b :: rest => if b then (pollLoop rest).map (· + 1) else some 0

/-- `tx.send(code, bits, repeats)`.  With `bits = 0`, Python's
`1 << (bits-1)` is `1 << -1` and raises `ValueError` before any pigpio
call; otherwise the chain is submitted to `pi.wave_chain` and the caller
polls `pi.wave_tx_busy()` until it reads idle. -/
def send (t : TxCfg) (code bits repeats : Nat) (busy : List Bool) :
    Except String (List Nat × Option Nat) :=
  if bits = 0 then .error "ValueError: negative shift count"
  else .ok (sendChain t code bits repeats, pollLoop busy)

/-! ### Helper lemmas for the transmit chain -/

lemma sendLoop_eq_map (t : TxCfg) (code : Nat) :
    ∀ k bit, sendLoop t code bit k =
      (sendBits code bit k).map (fun b => if b then t.wid1 else t.wid0) := by
  intro k
  induction k with
  | zero => intro bit; rfl
  | succ i ih =>
    intro bit
    simp [sendLoop, sendBits, ih]

lemma and_two_pow_ne_zero (code i : Nat) :
    decide (code &&& 2 ^ i ≠ 0) = code.testBit i := by
  rcases h : code.testBit i with _ | _ <;>
    simp [Nat.and_two_pow, h]

lemma sendBits_eq_bitsMSB (code : Nat) :
    ∀ m, sendBits code (2 ^ m) (m + 1) = bitsMSB code (m + 1) := by
  intro m
  induction m with
  | zero => simp [sendBits, bitsMSB, and_two_pow_ne_zero code 0]
  | succ m ih =>
    show (decide (code &&& 2 ^ (m + 1) ≠ 0)) ::
        sendBits code (2 ^ (m + 1) >>> 1) (m + 1) = _
    have hs : 2 ^ (m + 1) >>> 1 = 2 ^ m := by
      rw [Nat.shiftRight_one, pow_succ, Nat.mul_div_cancel _ (by omega)]
    rw [hs, ih, and_two_pow_ne_zero]
    rfl

lemma sendLoop_mem (t : TxCfg) (code : Nat) :
    ∀ k bit x, x ∈ sendLoop t code bit k → x = t.wid0 ∨ x = t.wid1 := by
  intro k
  induction k with
  | zero => intro bit x hx; simp [sendLoop] at hx
  | succ i ih =>
    intro bit x hx
    simp only [sendLoop, List.mem_cons] at hx
    rcases hx with hx | hx
    · by_cases hb : code &&& bit ≠ 0 <;> simp [hb] at hx <;> simp [hx]
    · exact ih _ x hx

lemma chainLoopAcc_spec :
    ∀ ids acc x y rest, (∀ i ∈ ids, i ≠ 255) →
      chainLoopAcc (ids ++ 255 :: 1 :: x :: y :: rest) acc =
        (List.replicate (x + 256 * y) (acc ++ ids)).flatten ++ rest := by
  intro ids
  induction ids with
  | nil => intro acc x y rest _; simp [chainLoopAcc]
  | cons i ids ih =>
    intro acc x y rest h
    have hi : i ≠ 255 := h i (by simp)
    have hrec := ih (acc ++ [i]) x y rest (fun j hj => h j (by simp [hj]))
    simp only [List.cons_append, chainLoopAcc, if_neg hi, List.append_eq]
    rw [hrec]
    simp

lemma pollLoop_finds :
    ∀ busy : List Bool, false ∈ busy →
      ∃ k, pollLoop busy = some k ∧ busy.getD k true = false ∧
        ∀ j < k, busy.getD j false = true := by
  intro busy
  induction busy with
  | nil => intro h; simp at h
  | cons b rest ih =>
    intro h
    rcases hb : b with _ | _
    · exact ⟨0, by simp [pollLoop], by simp, fun j hj => absurd hj (by omega)⟩
    · have hmem : false ∈ rest := by
        rcases List.mem_cons.1 h with h1 | h1
        · simp [hb] at h1
        · exact h1
      obtain ⟨k, h1, h2, h3⟩ := ih hmem
      refine ⟨k + 1, by simp [pollLoop, h1], by simpa using h2, ?_⟩
      intro j hj
      match j with
      | 0 => simp
      | j + 1 => simpa using h3 j (by omega)

/-! ### Claims about the transmitter -/

/-- C6 (counterexample): the claim says the STOP template is low for 4·TE,
but `tx._make_waves` builds it as `pulse(1<<gpio, 0, tstop)`, which drives
the pin HIGH for 4·TE (shown here at gpio 22, te 417). -/
theorem C6_stop_level_counterexample :
    waveSegs 22 (wave_stop 22 (4 * 417)) ≠ [(false, 4 * 417)] := by decide

/-- C6 (amended): at transmitter initialization exactly four templates are
built, parameterized by TE: START is low TE then high TE, STOP is HIGH for
4·TE (not low), BIT0 is high TE then low TE, BIT1 is low TE then high TE. -/
theorem C6_templates (g te : Nat) :
    waveSegs g (wave_start g te) = [(false, te), (true, te)]
  ∧ waveSegs g (wave_stop g (4 * te)) = [(true, 4 * te)]
  ∧ waveSegs g (wave_bit0 g te) = [(true, te), (false, te)]
  ∧ waveSegs g (wave_bit1 g te) = [(false, te), (true, te)] := by
  simp [waveSegs, wave_start, wave_stop, wave_bit0, wave_bit1, pulseLevel,
    Nat.one_shiftLeft, Nat.testBit_two_pow_self, Nat.zero_testBit]

/-- C7: for `bits ≥ 1` the chain submitted by `tx.send` expands, under the
backend's chain semantics, to exactly `repeats` atomic playbacks of
START, then one bit template per bit of `code` from bit `bits-1` down to
bit `0` (BIT1 where the bit is set, else BIT0), then STOP. -/
theorem C7_chain_construction (t : TxCfg) (code bits repeats : Nat)
    (hb : 1 ≤ bits) (h1 : t.start ≠ 255) (h2 : t.stop ≠ 255)
    (h3 : t.wid0 ≠ 255) (h4 : t.wid1 ≠ 255) :
    chainExpand (sendChain t code bits repeats) =
      (List.replicate repeats
        ([t.start] ++
          (bitsMSB code bits).map (fun b => if b then t.wid1 else t.wid0) ++
          [t.stop])).flatten := by
  obtain ⟨m, rfl⟩ : ∃ m, bits = m + 1 := ⟨bits - 1, by omega⟩
  have hids : ∀ i ∈ t.start :: (sendLoop t code (1 <<< m) (m + 1) ++ [t.stop]),
      i ≠ 255 := by
    intro i hi
    simp only [List.mem_cons, List.mem_append, List.not_mem_nil, or_false] at hi
    rcases hi with rfl | hi | rfl
    · exact h1
    · rcases sendLoop_mem t code (m + 1) (1 <<< m) i hi with rfl | rfl
      · exact h3
      · exact h4
    · exact h2
  have hshape : sendChain t code (m + 1) repeats =
      255 :: 0 :: ((t.start :: (sendLoop t code (1 <<< m) (m + 1) ++ [t.stop])) ++
        255 :: 1 :: repeats :: 0 :: []) := by
    simp [sendChain]
  rw [hshape]
  show chainLoopAcc _ [] = _
  rw [chainLoopAcc_spec _ [] _ _ _ hids]
  rw [Nat.one_shiftLeft] at *
  rw [sendLoop_eq_map, sendBits_eq_bitsMSB]
  simp

/-- Witness for C7 at code 0xA5, 8 bits, 2 repeats. -/
theorem C7_chain_construction_witness :
    chainExpand (sendChain ⟨22, 417, 0, 1, 2, 3⟩ 165 8 2) =
      (List.replicate 2
        ([0] ++ (bitsMSB 165 8).map (fun b => if b then 3 else 2) ++ [1])).flatten :=
  C7_chain_construction ⟨22, 417, 0, 1, 2, 3⟩ 165 8 2 (by decide) (by decide)
    (by decide) (by decide) (by decide)

/-- C8 (counterexample): the claim says `send` with `repeatCount = 0`
rejects before any hardware call, but `tx.send` performs no such check: the
chain is built and submitted to `pi.wave_chain` with a repeat count of 0. -/
theorem C8_repeat_zero_counterexample :
    send ⟨22, 417, 0, 1, 2, 3⟩ 161 16 0 [false] =
      .ok (sendChain ⟨22, 417, 0, 1, 2, 3⟩ 161 16 0, some 0) := rfl

/-- C8 (amended): `send` with `bitCount = 0` raises (Python
`1 << -1` → ValueError) before any backend call; `repeatCount = 0` is NOT
rejected (see the counterexample — the chain is still submitted); with
`bitCount ≥ 1` and a busy flag that eventually clears, `send` submits the
chain and blocks, polling the busy flag, returning exactly at the first
idle reading. -/
theorem C8_send_reject_and_block (t : TxCfg) (code bits repeats : Nat)
    (busy : List Bool) :
    (bits = 0 →
      send t code bits repeats busy = .error "ValueError: negative shift count")
  ∧ (bits ≠ 0 → false ∈ busy →
      ∃ k, send t code bits repeats busy =
          .ok (sendChain t code bits repeats, some k)
        ∧ busy.getD k true = false
        ∧ ∀ j < k, busy.getD j false = true) := by
  constructor
  · intro h; simp [send, h]
  · intro hb hmem
    obtain ⟨k, h1, h2, h3⟩ := pollLoop_finds busy hmem
    exact ⟨k, by simp [send, hb, h1], h2, h3⟩

/-- Witness for C8: bits = 0 errors; a valid call with busy trace
`[true, false]` submits the chain and returns after the flag clears. -/
theorem C8_send_reject_and_block_witness :
    send ⟨22, 417, 0, 1, 2, 3⟩ 161 0 1 [false] =
      .error "ValueError: negative shift count"
  ∧ ∃ k, send ⟨22, 417, 0, 1, 2, 3⟩ 161 16 1 [true, false] =
        .ok (sendChain ⟨22, 417, 0, 1, 2, 3⟩ 161 16 1, some k)
      ∧ [true, false].getD k true = false
      ∧ ∀ j < k, [true, false].getD j false = true :=
  ⟨(C8_send_reject_and_block ⟨22, 417, 0, 1, 2, 3⟩ 161 0 1 [false]).1 rfl,
   (C8_send_reject_and_block ⟨22, 417, 0, 1, 2, 3⟩ 161 16 1 [true, false]).2
     (by decide) (by decide)⟩

/-! ### State-independence of frame decoding (C9, C10)

The fields of `RxState` that influence future frames are exactly `edges`,
`code`, and — once the frame is under way — `last_edge_tick`, `prev`,
`prev_edge_len`.  `simRel` records which fields must agree, given the edge
count, for two decoder states to behave identically from here on. -/

def simRel (s s' : RxState) : Prop :=
  s.edges = s'.edges ∧ s.code = s'.code ∧
  (1 ≤ s.edges → s.last_edge_tick = s'.last_edge_tick) ∧
  (2 ≤ s.edges → s.prev = s'.prev) ∧
  (s.edges % 2 = 1 → 2 ≤ s.edges → s.prev_edge_len = s'.prev_edge_len)

lemma decode_fields (s : RxState) (h l : Nat) :
    (decode s h l).edges = s.edges ∧
    (decode s h l).prev_edge_len = s.prev_edge_len ∧
    (decode s h l).last_edge_tick = s.last_edge_tick ∧
    (decode s h l).wdog = s.wdog ∧
    (decode s h l).frame = s.frame := by
  unfold decode decodeAux
  refine ⟨?_, ?_, ?_, ?_, ?_⟩ <;> (repeat' split) <;> rfl

lemma decode_congr (s s' : RxState) (h l : Nat)
    (hc : s.code = s'.code) (hp : s.prev = s'.prev) :
    (decode s h l).code = (decode s' h l).code ∧
    (decode s h l).prev = (decode s' h l).prev := by
  unfold decode decodeAux
  rw [hc, hp]
  refine ⟨?_, ?_⟩ <;> (repeat' split) <;> simp_all

lemma decode_congr3 (s s' : RxState) (h l : Nat)
    (hic : s.in_code = s'.in_code) (hc : s.code = s'.code) (hp : s.prev = s'.prev) :
    (decode s h l).in_code = (decode s' h l).in_code ∧
    (decode s h l).code = (decode s' h l).code ∧
    (decode s h l).prev = (decode s' h l).prev := by
  unfold decode decodeAux
  rw [hic, hc, hp]
  refine ⟨?_, ?_, ?_⟩ <;> (repeat' split) <;> simp_all

/-- `rx._cbe` on one of the first two edges of a frame (the start bit). -/
lemma cbe_edge_start (s : RxState) (lv tk : Nat) (hl : lv < 2)
    (h2 : s.edges < 2) :
    cbe s lv tk =
      (⟨s.in_code, s.edges + 1, s.code, s.prev_edge_len, 1, tk, WDOG_MS,
        s.frame⟩, []) := by
  simp [cbe, hl, h2]

/-- `rx._cbe` on a falling data edge (even edge count ≥ 2): the high time
is captured into `_prev_edge_len`. -/
lemma cbe_edge_capture (s : RxState) (lv tk : Nat) (hl : lv < 2)
    (h2 : ¬ s.edges < 2) (h3 : ¬ s.edges % 2 = 1) :
    cbe s lv tk =
      (⟨s.in_code, s.edges + 1, s.code, tickDiff s.last_edge_tick tk, s.prev,
        tk, WDOG_MS, s.frame⟩, []) := by
  simp [cbe, hl, h2, h3]

/-- `rx._cbe` on a rising data edge (odd edge count ≥ 3): `_decode` runs on
the captured high time and the just-elapsed low time. -/
lemma cbe_edge_decode (s : RxState) (lv tk : Nat) (hl : lv < 2)
    (h2 : ¬ s.edges < 2) (h3 : s.edges % 2 = 1) :
    cbe s lv tk =
      (⟨(decode s s.prev_edge_len (tickDiff s.last_edge_tick tk)).in_code,
        s.edges + 1,
        (decode s s.prev_edge_len (tickDiff s.last_edge_tick tk)).code,
        s.prev_edge_len,
        (decode s s.prev_edge_len (tickDiff s.last_edge_tick tk)).prev,
        tk, WDOG_MS, s.frame⟩, []) := by
  obtain ⟨hg1, hg2, hg3⟩ := decode_congr3 { s with wdog := 0, last_edge_tick := tk } s
    s.prev_edge_len (tickDiff s.last_edge_tick tk) rfl rfl rfl
  obtain ⟨hf1, hf2, hf3, hf4, hf5⟩ := decode_fields
    { s with wdog := 0, last_edge_tick := tk }
    s.prev_edge_len (tickDiff s.last_edge_tick tk)
  simp [cbe, hl, h3]
  simp only [if_neg h2]
  exact ⟨hg1, hf1, hg2, hf2, hg3, hf3, hf5⟩

/-- `rx._cbe` on watchdog timeout. -/
lemma cbe_timeout (s : RxState) (lv tk : Nat) (hl : ¬ lv < 2) :
    cbe s lv tk =
      (⟨s.in_code, 0, 0, s.prev_edge_len, s.prev, s.last_edge_tick, 0,
        s.code⟩, [s.code]) := by
  simp [cbe, stopFrame, hl]

lemma cbe_sim (s s' : RxState) (lv tk : Nat) (hR : simRel s s') :
    (cbe s lv tk).2 = (cbe s' lv tk).2 ∧ simRel (cbe s lv tk).1 (cbe s' lv tk).1 := by
  obtain ⟨he, hc, hlast, hprev, hpel⟩ := hR
  by_cases hl : lv < 2
  · by_cases h2 : s.edges < 2
    · rw [cbe_edge_start s lv tk hl h2, cbe_edge_start s' lv tk hl (he ▸ h2)]
      refine ⟨rfl, by simp [he], by simp [hc], by simp, by simp, ?_⟩
      intro h4 h5
      simp at h4 h5
      omega
    · by_cases h3 : s.edges % 2 = 1
      · rw [cbe_edge_decode s lv tk hl h2 h3,
          cbe_edge_decode s' lv tk hl (he ▸ h2) (he ▸ h3)]
        have hpel2 := hpel h3 (by omega)
        have hlast2 := hlast (by omega)
        have hcg := decode_congr s s' s.prev_edge_len (tickDiff s.last_edge_tick tk)
          hc (hprev (by omega))
        rw [← hpel2, ← hlast2]
        refine ⟨rfl, by simp [he], by simpa using hcg.1, by simp, ?_, ?_⟩
        · intro _
          simpa using hcg.2
        · intro h4 _
          simp at h4
          omega
      · rw [cbe_edge_capture s lv tk hl h2 h3,
          cbe_edge_capture s' lv tk hl (he ▸ h2) (he ▸ h3)]
        have hlast2 := hlast (by omega)
        refine ⟨rfl, by simp [he], by simp [hc], by simp, by simp [hprev (by omega)], ?_⟩
        intro _ _
        simp [hlast2]
  · rw [cbe_timeout s lv tk hl, cbe_timeout s' lv tk hl]
    refine ⟨by simp [hc], rfl, rfl, ?_, ?_, ?_⟩ <;> intro h4 <;> simp at h4

lemma runRx_sim : ∀ (es : List (Nat × Nat)) (s s' : RxState), simRel s s' →
    (runRx s es).2 = (runRx s' es).2 ∧ simRel (runRx s es).1 (runRx s' es).1 := by
  intro es
  induction es with
  | nil => intro s s' h; exact ⟨rfl, h⟩
  | cons e es ih =>
    intro s s' h
    obtain ⟨lv, tk⟩ := e
    obtain ⟨h1, h2⟩ := cbe_sim s s' lv tk h
    obtain ⟨h3, h4⟩ := ih _ _ h2
    exact ⟨by simp [runRx, h1, h3], by simpa [runRx] using h4⟩

lemma runRx_append (s : RxState) (xs ys : List (Nat × Nat)) :
    runRx s (xs ++ ys) =
      ((runRx (runRx s xs).1 ys).1,
        (runRx s xs).2 ++ (runRx (runRx s xs).1 ys).2) := by
  induction xs generalizing s with
  | nil => simp [runRx]
  | cons e xs ih =>
    obtain ⟨lv, tk⟩ := e
    simp [runRx, ih]

/-- C9 (counterexample): the claim says that after a delivered frame the
whole decoder state, including the pending high duration, is reset to
empty; but `rx._stop` resets only `_edges` and `_code`, so after a frame
begun with three edges (417 µs apart) and ended by the watchdog, the
retained `_prev_edge_len` is 417, not 0. -/
theorem C9_reset_counterexample :
    ((runRx (initState 0) [(0, 0), (1, 417), (0, 834), (2, 1000)]).1).prev_edge_len
      ≠ 0 := by decide

/-- C9 (amended): after a delivered frame the edge counter and shift
register are reset to 0 (`previousHalfBit`, the pending high duration and
the error flag are retained); nevertheless, feeding the same edge sequence
twice, each pass ended by the silence timeout, delivers the same frames
both times, because the retained fields are overwritten before first use. -/
theorem C9_delivery_reset_and_replay (g tz : Nat) (es : List (Nat × Nat)) :
    ((runRx (initState g) (es ++ [(2, tz)])).1).edges = 0
  ∧ ((runRx (initState g) (es ++ [(2, tz)])).1).code = 0
  ∧ (runRx ((runRx (initState g) (es ++ [(2, tz)])).1) (es ++ [(2, tz)])).2 =
      (runRx (initState g) (es ++ [(2, tz)])).2 := by
  have h1 : ((runRx (initState g) (es ++ [(2, tz)])).1).edges = 0 := by
    rw [runRx_append]
    simp [runRx, cbe, stopFrame]
  have h2 : ((runRx (initState g) (es ++ [(2, tz)])).1).code = 0 := by
    rw [runRx_append]
    simp [runRx, cbe, stopFrame]
  refine ⟨h1, h2, ?_⟩
  refine (runRx_sim (es ++ [(2, tz)]) _ (initState g) ⟨?_, ?_, ?_, ?_, ?_⟩).1
  · rw [h1]; rfl
  · rw [h2]; rfl
  · intro h4; rw [h1] at h4; omega
  · intro h4; rw [h1] at h4; omega
  · intro h4 h5; rw [h1] at h5; omega

/-- C10: the decoded frames do not depend on decoder state retained from
before the frame began: any two decoder states at a frame boundary (edge
counter and shift register zero — exactly what `rx._stop` resets, with
`_prev`, `_prev_edge_len`, `_last_edge_tick`, `_in_code` arbitrary)
deliver equal frame sequences on any subsequent event sequence. -/
theorem C10_frame_independence (es : List (Nat × Nat)) (s s' : RxState)
    (he : s.edges = 0) (he' : s'.edges = 0)
    (hc : s.code = 0) (hc' : s'.code = 0) :
    (runRx s es).2 = (runRx s' es).2 :=
  (runRx_sim es s s'
    ⟨by omega, by omega, by intro h4; omega, by intro h4; omega,
     by intro h4 h5; omega⟩).1

/-- Witness for C10: a state polluted by prior traffic (stale
`previousHalfBit`, pending high duration, tick and error flag) decodes a
frame identically to a freshly initialized decoder. -/
theorem C10_frame_independence_witness :
    (runRx ⟨9, 0, 0, 777, 1, 123, 2, 5⟩
        [(0, 10), (1, 427), (0, 844), (1, 1261), (2, 2000)]).2 =
    (runRx (initState 0)
        [(0, 10), (1, 427), (0, 844), (1, 1261), (2, 2000)]).2 :=
  C10_frame_independence [(0, 10), (1, 427), (0, 844), (1, 1261), (2, 2000)]
    ⟨9, 0, 0, 777, 1, 123, 2, 5⟩ (initState 0) rfl rfl rfl rfl

/-! ### Round trip (C1): transmit templates → pulse durations → decoder

The transmitted frame is the concatenation START ++ (one bit template per
bit, MSB first) ++ STOP of the `tx._make_waves` templates.  On the wire,
adjacent equal levels merge into single pulses; each level transition is an
edge event for the receiver, and the frame is terminated by bus silence
(the watchdog). -/

/-- The pin waveform of a frame: START, the bit templates MSB-first, STOP
(as built by `tx.send` for one repeat). -/
def frameWave (g te : Nat) (bs : List Bool) : List (Bool × Nat) :=
  waveSegs g (wave_start g te) ++
    (bs.map (fun b => waveSegs g (if b then wave_bit1 g te else wave_bit0 g te))).flatten ++
    waveSegs g (wave_stop g (4 * te))

/-- Coalesce an open pulse (level `l`, accumulated duration `d`) with the
following segments: adjacent equal levels merge into one pulse. -/
def mergeRun (l : Bool) (d : Nat) : List (Bool × Nat) → List (Bool × Nat)
  | [] => [(l, d)]
  | (l2, d2) :: rest =>
    if l2 = l then mergeRun l (d + d2) rest else (l, d) :: mergeRun l2 d2 rest

/-- The maximal constant-level pulses of a waveform. -/
def mergeSeg : List (Bool × Nat) → List (Bool × Nat)
  | [] => []
  | (l, d) :: rest => mergeRun l d rest

/-- The merged pulses of a frame waveform after the initial low half-bit of
START, as a function of the previous half-bit level `p` and the remaining
bits: a bit equal to the previous level merges two half-bits into one
double pulse; the final high pulse absorbs STOP. -/
def segsLD (te : Nat) : Bool → List Bool → List (Bool × Nat)
  | true, [] => [(true, te + 4 * te)]
  | false, [] => [(false, te), (true, 4 * te)]
  | true, true :: bs => (true, te) :: (false, te) :: segsLD te true bs
  | true, false :: bs => (true, te + te) :: segsLD te false bs
  | false, true :: bs => (false, te + te) :: segsLD te true bs
  | false, false :: bs => (false, te) :: (true, te) :: segsLD te false bs

/-- The pulse durations actually delivered as edges to the receiver: every
merged pulse except the final one (which ends in silence, not an edge). -/
def segs (te : Nat) : Bool → List Bool → List Nat
  | true, [] => []
  | false, [] => [te]
  | true, true :: bs => te :: te :: segs te true bs
  | true, false :: bs => (te + te) :: segs te false bs
  | false, true :: bs => (te + te) :: segs te true bs
  | false, false :: bs => te :: te :: segs te false bs

/-- Edge events generated by a pulse-duration list: each pulse ends with a
transition to the opposite level, at the tick obtained by adding its
duration. -/
def edgeEvents (lv t : Nat) : List Nat → List (Nat × Nat)
  | [] => []
  | d :: ds => (1 - lv, t + d) :: edgeEvents (1 - lv) (t + d) ds

/-- MSB-first accumulation of a bit list into an unsigned integer. -/
def foldBits (c : Nat) (bs : List Bool) : Nat :=
  bs.foldl (fun a b => 2 * a + (if b then 1 else 0)) c

/-! #### Helper lemmas for the round trip -/

lemma waveSegs_start (g te : Nat) :
    waveSegs g (wave_start g te) = [(false, te), (true, te)] := by
  simp [waveSegs, wave_start, pulseLevel, Nat.one_shiftLeft,
    Nat.testBit_two_pow_self, Nat.zero_testBit]

lemma waveSegs_stop (g tstop : Nat) :
    waveSegs g (wave_stop g tstop) = [(true, tstop)] := by
  simp [waveSegs, wave_stop, pulseLevel, Nat.one_shiftLeft,
    Nat.testBit_two_pow_self]

lemma waveSegs_bit0 (g te : Nat) :
    waveSegs g (wave_bit0 g te) = [(true, te), (false, te)] := by
  simp [waveSegs, wave_bit0, pulseLevel, Nat.one_shiftLeft,
    Nat.testBit_two_pow_self, Nat.zero_testBit]

lemma waveSegs_bit1 (g te : Nat) :
    waveSegs g (wave_bit1 g te) = [(false, te), (true, te)] := by
  simp [waveSegs, wave_bit1, pulseLevel, Nat.one_shiftLeft,
    Nat.testBit_two_pow_self, Nat.zero_testBit]

lemma frameWave_eq (g te : Nat) (bs : List Bool) :
    frameWave g te bs =
      (false, te) :: (true, te) ::
        ((bs.map (fun b =>
            if b then [(false, te), (true, te)] else [(true, te), (false, te)])).flatten
          ++ [(true, 4 * te)]) := by
  have hmap : (fun b => waveSegs g (if b then wave_bit1 g te else wave_bit0 g te)) =
      (fun b : Bool =>
        if b then [(false, te), (true, te)] else [(true, te), (false, te)]) := by
    funext b
    cases b <;> simp [waveSegs_bit0, waveSegs_bit1]
  simp [frameWave, waveSegs_start, waveSegs_stop, hmap]

lemma mergeRun_frame (te : Nat) :
    ∀ (bs : List Bool) (p : Bool),
      mergeRun p te
        ((bs.map (fun b =>
            if b then [(false, te), (true, te)] else [(true, te), (false, te)])).flatten
          ++ [(true, 4 * te)]) = segsLD te p bs := by
  intro bs
  induction bs with
  | nil =>
    intro p
    cases p <;> simp [mergeRun, segsLD]
  | cons b bs ih =>
    intro p
    cases p <;> cases b <;>
      simp [mergeRun, segsLD, ih]

lemma mergeSeg_frameWave (g te : Nat) (bs : List Bool) :
    mergeSeg (frameWave g te bs) = (false, te) :: segsLD te true bs := by
  rw [frameWave_eq]
  show mergeRun false te _ = _
  rw [mergeRun]
  simp [mergeRun_frame]

lemma segsLD_ne_nil (te : Nat) : ∀ (p : Bool) (bs : List Bool), segsLD te p bs ≠ [] := by
  intro p bs
  cases p <;> rcases bs with _ | ⟨b, bs⟩ <;> (try cases b) <;> simp [segsLD]

lemma dropLast_cons_ne {α : Type} (a : α) (l : List α) (h : l ≠ []) :
    (a :: l).dropLast = a :: l.dropLast := by
  cases l with
  | nil => exact absurd rfl h
  | cons x xs => rfl

lemma dropLast_map_segsLD (te : Nat) :
    ∀ (bs : List Bool) (p : Bool),
      ((segsLD te p bs).dropLast).map Prod.snd = segs te p bs := by
  intro bs
  induction bs with
  | nil => intro p; cases p <;> simp [segsLD, segs]
  | cons b bs ih =>
    intro p
    cases p <;> cases b <;>
      simp [segsLD, segs, dropLast_cons_ne _ _ (segsLD_ne_nil te _ bs), ih]

lemma tickDiff_add (t d : Nat) : tickDiff t (t + d) = d := by
  simp [tickDiff]

lemma runRx_cons (s : RxState) (lv tk : Nat) (es : List (Nat × Nat)) :
    runRx s ((lv, tk) :: es) =
      ((runRx (cbe s lv tk).1 es).1,
        (cbe s lv tk).2 ++ (runRx (cbe s lv tk).1 es).2) := rfl

lemma isLong_417 : isLong 417 = false := by decide
lemma isShort_417 : isShort 417 = true := by decide
lemma isLong_834 : isLong 834 = true := by decide
lemma isShort_834 : isShort 834 = false := by decide

lemma actionOf_1_417_417 : actionOf 1 417 417 = 4 := by decide
lemma actionOf_1_834_417 : actionOf 1 834 417 = 5 := by decide
lemma actionOf_1_834_834 : actionOf 1 834 834 = 7 := by decide
lemma actionOf_0_417_417 : actionOf 0 417 417 = 0 := by decide
lemma actionOf_0_417_834 : actionOf 0 417 834 = 2 := by decide

/-- Running the receiver over the edge events of the merged frame pulses:
from an awaiting-high state (`edges` even ≥ 2, `previousHalfBit` 1) the
stream `segs 417 true bs` appends exactly the bits `bs`; from an
awaiting-low state (`edges` odd ≥ 3) with a pending high of matching
parity, the stream `segs 417 false bs` appends `false :: bs`. -/
lemma runRx_segs (bs : List Bool) :
    (∀ e c t pel ic wd fr lv : Nat, e % 2 = 0 → 2 ≤ e →
      (runRx ⟨ic, e, c, pel, 1, t, wd, fr⟩ (edgeEvents lv t (segs 417 true bs))).2 = []
      ∧ ((runRx ⟨ic, e, c, pel, 1, t, wd, fr⟩ (edgeEvents lv t (segs 417 true bs))).1).code
          = foldBits c bs)
  ∧ (∀ e c t pel prev ic wd fr lv : Nat, e % 2 = 1 → 3 ≤ e →
      ((prev = 1 ∧ pel = 834) ∨ (prev = 0 ∧ pel = 417)) →
      (runRx ⟨ic, e, c, pel, prev, t, wd, fr⟩ (edgeEvents lv t (segs 417 false bs))).2 = []
      ∧ ((runRx ⟨ic, e, c, pel, prev, t, wd, fr⟩ (edgeEvents lv t (segs 417 false bs))).1).code
          = foldBits c (false :: bs)) := by
  induction bs with
  | nil =>
    constructor
    · intro e c t pel ic wd fr lv he1 he2
      simp [segs, edgeEvents, runRx, foldBits]
    · intro e c t pel prev ic wd fr lv he1 he2 hP
      simp only [segs, edgeEvents]
      rw [runRx_cons,
        cbe_edge_decode ⟨ic, e, c, pel, prev, t, wd, fr⟩ (1 - lv) (t + 417)
          (by omega) (by simp; omega) (by simp; omega)]
      dsimp only
      rw [tickDiff_add]
      rcases hP with ⟨hp, hq⟩ | ⟨hp, hq⟩ <;> subst hp <;> subst hq <;>
        simp [runRx, decode, decodeAux, actionOf_1_834_417, actionOf_0_417_417,
          icOf, icOfHigh, isLong_417, isShort_417, isLong_834, isShort_834,
          foldBits, Nat.shiftLeft_eq] <;>
      ring
  | cons b bs2 ih =>
    obtain ⟨ihA, ihB⟩ := ih
    constructor
    · intro e c t pel ic wd fr lv he1 he2
      cases b with
      | true =>
        simp only [segs, edgeEvents]
        rw [runRx_cons,
          cbe_edge_capture ⟨ic, e, c, pel, 1, t, wd, fr⟩ (1 - lv) (t + 417)
            (by omega) (by simp; omega) (by simp; omega)]
        dsimp only
        rw [tickDiff_add]
        rw [runRx_cons,
          cbe_edge_decode ⟨ic, e + 1, c, 417, 1, t + 417, WDOG_MS, fr⟩
            (1 - (1 - lv)) (t + 417 + 417)
            (by omega) (by simp; omega) (by simp; omega)]
        dsimp only
        rw [tickDiff_add]
        have hdec : decode ⟨ic, e + 1, c, 417, 1, t + 417, WDOG_MS, fr⟩ 417 417 =
            ⟨ic, e + 1, c <<< 1 + 1, 417, 1, t + 417, WDOG_MS, fr⟩ := by
          simp [decode, decodeAux, actionOf_1_417_417, icOf, icOfHigh,
            isLong_417, isShort_417]
        rw [hdec]
        dsimp only
        obtain ⟨hA1, hA2⟩ := ihA (e + 1 + 1) (c <<< 1 + 1) (t + 417 + 417) 417 ic
          WDOG_MS fr (1 - (1 - lv)) (by omega) (by omega)
        refine ⟨by simpa using hA1, ?_⟩
        rw [hA2]
        rfl
      | false =>
        simp only [segs, edgeEvents]
        rw [runRx_cons,
          cbe_edge_capture ⟨ic, e, c, pel, 1, t, wd, fr⟩ (1 - lv) (t + (417 + 417))
            (by omega) (by simp; omega) (by simp; omega)]
        dsimp only
        rw [tickDiff_add]
        obtain ⟨hB1, hB2⟩ := ihB (e + 1) c (t + (417 + 417)) (417 + 417) 1 ic
          WDOG_MS fr (1 - lv) (by omega) (by omega) (Or.inl ⟨rfl, by norm_num⟩)
        exact ⟨by simpa using hB1, by rw [hB2]⟩
    · intro e c t pel prev ic wd fr lv he1 he2 hP
      cases b with
      | true =>
        simp only [segs, edgeEvents]
        rw [runRx_cons,
          cbe_edge_decode ⟨ic, e, c, pel, prev, t, wd, fr⟩ (1 - lv) (t + (417 + 417))
            (by omega) (by simp; omega) (by simp; omega)]
        dsimp only
        rw [tickDiff_add]
        rcases hP with ⟨hp, hq⟩ | ⟨hp, hq⟩ <;> subst hp <;> subst hq
        · have hdec : decode ⟨ic, e, c, 834, 1, t, wd, fr⟩ 834 (417 + 417) =
              ⟨ic, e, (c <<< 1) <<< 1 + 1, 834, 1, t, wd, fr⟩ := by
            have h84 : (417 + 417 : Nat) = 834 := by norm_num
            rw [h84]
            simp [decode, decodeAux, actionOf_1_834_834, icOf, icOfHigh,
              isLong_834, isShort_834]
          rw [hdec]
          dsimp only
          obtain ⟨hA1, hA2⟩ := ihA (e + 1) ((c <<< 1) <<< 1 + 1) (t + (417 + 417))
            834 ic WDOG_MS fr (1 - lv) (by omega) (by omega)
          refine ⟨by simpa using hA1, ?_⟩
          rw [hA2]
          rfl
        · have hdec : decode ⟨ic, e, c, 417, 0, t, wd, fr⟩ 417 (417 + 417) =
              ⟨ic, e, (c <<< 1) <<< 1 + 1, 417, 1, t, wd, fr⟩ := by
            have h84 : (417 + 417 : Nat) = 834 := by norm_num
            rw [h84]
            simp [decode, decodeAux, actionOf_0_417_834, icOf, icOfHigh,
              isLong_417, isShort_417, isLong_834, isShort_834]
          rw [hdec]
          dsimp only
          obtain ⟨hA1, hA2⟩ := ihA (e + 1) ((c <<< 1) <<< 1 + 1) (t + (417 + 417))
            417 ic WDOG_MS fr (1 - lv) (by omega) (by omega)
          refine ⟨by simpa using hA1, ?_⟩
          rw [hA2]
          rfl
      | false =>
        simp only [segs, edgeEvents]
        rw [runRx_cons,
          cbe_edge_decode ⟨ic, e, c, pel, prev, t, wd, fr⟩ (1 - lv) (t + 417)
            (by omega) (by simp; omega) (by simp; omega)]
        dsimp only
        rw [tickDiff_add]
        rcases hP with ⟨hp, hq⟩ | ⟨hp, hq⟩ <;> subst hp <;> subst hq
        · have hdec : decode ⟨ic, e, c, 834, 1, t, wd, fr⟩ 834 417 =
              ⟨ic, e, c <<< 1, 834, 0, t, wd, fr⟩ := by
            simp [decode, decodeAux, actionOf_1_834_417, icOf, icOfHigh,
              isLong_417, isShort_417, isLong_834, isShort_834]
          rw [hdec]
          dsimp only
          rw [runRx_cons,
            cbe_edge_capture ⟨ic, e + 1, c <<< 1, 834, 0, t + 417, WDOG_MS, fr⟩
              (1 - (1 - lv)) (t + 417 + 417)
              (by omega) (by simp; omega) (by simp; omega)]
          dsimp only
          rw [tickDiff_add]
          obtain ⟨hB1, hB2⟩ := ihB (e + 1 + 1) (c <<< 1) (t + 417 + 417) 417 0 ic
            WDOG_MS fr (1 - (1 - lv)) (by omega) (by omega) (Or.inr ⟨rfl, rfl⟩)
          refine ⟨by simpa using hB1, ?_⟩
          rw [hB2]
          rfl
        · have hdec : decode ⟨ic, e, c, 417, 0, t, wd, fr⟩ 417 417 =
              ⟨ic, e, c <<< 1, 417, 0, t, wd, fr⟩ := by
            simp [decode, decodeAux, actionOf_0_417_417, icOf, icOfHigh,
              isLong_417, isShort_417]
          rw [hdec]
          dsimp only
          rw [runRx_cons,
            cbe_edge_capture ⟨ic, e + 1, c <<< 1, 417, 0, t + 417, WDOG_MS, fr⟩
              (1 - (1 - lv)) (t + 417 + 417)
              (by omega) (by simp; omega) (by simp; omega)]
          dsimp only
          rw [tickDiff_add]
          obtain ⟨hB1, hB2⟩ := ihB (e + 1 + 1) (c <<< 1) (t + 417 + 417) 417 0 ic
            WDOG_MS fr (1 - (1 - lv)) (by omega) (by omega) (Or.inr ⟨rfl, rfl⟩)
          refine ⟨by simpa using hB1, ?_⟩
          rw [hB2]
          rfl

lemma foldBits_bitsMSB (v : Nat) : ∀ (n : Nat) (c : Nat),
    foldBits c (bitsMSB v n) = c * 2 ^ n + v % 2 ^ n := by
  intro n
  induction n with
  | zero => intro c; simp [bitsMSB, foldBits, Nat.mod_one]
  | succ m ihm =>
    intro c
    rw [show foldBits c (bitsMSB v (m + 1)) =
      foldBits (2 * c + (if v.testBit m then 1 else 0)) (bitsMSB v m) from rfl]
    rw [ihm]
    have hbit : (if v.testBit m then 1 else 0) = v / 2 ^ m % 2 := by
      by_cases h : v.testBit m
      · rw [if_pos h]
        rw [Nat.testBit_to_div_mod] at h
        simp only [decide_eq_true_eq] at h
        omega
      · rw [if_neg h]
        rw [Nat.testBit_to_div_mod] at h
        simp only [decide_eq_true_eq] at h
        omega
    have hmod : v % 2 ^ (m + 1) = v % 2 ^ m + 2 ^ m * (v / 2 ^ m % 2) := by
      rw [pow_succ, Nat.mod_mul]
    rw [hbit, hmod, pow_succ]
    ring

lemma frameDurs_eq (g : Nat) (bs : List Bool) :
    ((mergeSeg (frameWave g 417 bs)).dropLast).map Prod.snd =
      417 :: segs 417 true bs := by
  rw [mergeSeg_frameWave,
    dropLast_cons_ne _ _ (segsLD_ne_nil 417 true bs)]
  simp only [List.map_cons]
  rw [dropLast_map_segsLD]

/-- C1: round trip.  For every bit count `n` in `[1,24]` and every `n`-bit
value `v`, encoding `v` with the transmitter's template rules (START, then
for each of the `n` bits MSB-first BIT1 if the bit is set else BIT0, then
STOP), merging adjacent equal levels into pulses, and feeding the pulse
ends as alternating edge events into the receive decoder, followed by the
silence timeout, delivers exactly one frame whose value equals `v` —
from a freshly initialized receiver, for any initial tick `g`, frame start
tick `t0` and timeout tick `tz`. -/
theorem C1_roundtrip (n v g t0 tz : Nat)
    (hn1 : 1 ≤ n) (hn2 : n ≤ 24) (hv : v < 2 ^ n) :
    (runRx (initState g)
      (((0, t0) :: edgeEvents 0 t0
          (((mergeSeg (frameWave 22 417 (bitsMSB v n))).dropLast).map Prod.snd))
        ++ [(2, tz)])).2 = [v] := by
  rw [frameDurs_eq]
  rw [runRx_append]
  simp only [initState, edgeEvents]
  rw [runRx_cons,
    cbe_edge_start ⟨0, 0, 0, 0, 0, g, 0, 0⟩ 0 t0 (by omega) (by simp)]
  dsimp only
  rw [runRx_cons,
    cbe_edge_start ⟨0, 1, 0, 0, 1, t0, WDOG_MS, 0⟩ 1 (t0 + 417) (by omega) (by simp)]
  dsimp only
  obtain ⟨hA1, hA2⟩ := (runRx_segs (bitsMSB v n)).1 2 0 (t0 + 417) 0 0
    WDOG_MS 0 1 (by omega) (by omega)
  rw [runRx_cons, cbe_timeout _ 2 tz (by omega)]
  have hfold : foldBits 0 (bitsMSB v n) = v := by
    rw [foldBits_bitsMSB]
    simp [Nat.mod_eq_of_lt hv]
  simp [hA1, hA2, hfold, runRx]

/-- Witness for C1: the spec's own example value 0x0F at 8 bits decodes
back to 0x0F. -/
theorem C1_roundtrip_witness :
    (runRx (initState 0)
      (((0, 0) :: edgeEvents 0 0
          (((mergeSeg (frameWave 22 417 (bitsMSB 15 8))).dropLast).map Prod.snd))
        ++ [(2, 99999)])).2 = [15] :=
  C1_roundtrip 8 15 0 0 99999 (by decide) (by decide) (by decide)

end Dali
